import Mathlib

/-!
A shallow embedding of the crawler in src/robust_email_scraper.py and proofs
about it.  Pure helpers of the script become Lean functions on lists of
characters; the selenium driver is modelled by an oracle giving, for each URL,
the rendered page source and the href attributes of its anchor elements, plus
an event trace recording driver creation, navigation and shutdown; the
uncaught-exception path of the script is modelled by an Outcome type carrying
the program state at the point where the exception escaped.
-/

/-! ### The regex email extractor (extract_emails, line 33-35)

The pattern is localpart at domain dot tld, written in the script as the
character classes A = [a-zA-Z0-9._%+-], B = [a-zA-Z0-9.-], C = [a-zA-Z] in
the shape A+ at-sign B+ backslash-dot C twice-or-more.  re.findall scans left
to right; at each position the A+ run is maximal (the at-sign is not an
A character, so shrinking A+ never helps), then B+ is maximal and the engine
backtracks it from the right looking for a literal dot followed by a greedy
run of at least two letters.  bestDot returns the dot position the engine
settles on: the largest index k of the B run such that k has at least one
B character before it and the maximal letter run after position k has length
at least two. -/

def isACh (c : Char) : Bool :=
  c.isAlpha || c.isDigit || c == '.' || c == '_' || c == '%' || c == '+' || c == '-'

def isBCh (c : Char) : Bool :=
  c.isAlpha || c.isDigit || c == '.' || c == '-'

def letterRun (s : List Char) : List Char := s.takeWhile Char.isAlpha

def bestDot (S : List Char) : Option Nat :=
  (List.range S.length).reverse.find? fun k =>
    decide (1 ≤ k) && decide (2 ≤ (letterRun (S.drop (k+1))).length) && (S.getD k ' ' == '.')

def matchAtDom (lp S r2 : List Char) : Option (List Char × List Char) :=
  match bestDot S with
  | some k =>
      some (lp ++ '@' :: (S.take k ++ '.' :: letterRun (S.drop (k+1))),
            ((S.drop (k+1)).drop (letterRun (S.drop (k+1))).length) ++ r2)
  | none => none

def matchAtLp (lp rest : List Char) : Option (List Char × List Char) :=
  if lp = [] then none
  else
    match rest with
    | c :: r1 =>
        if c = '@' then
          matchAtDom lp (r1.takeWhile isBCh) (r1.drop (r1.takeWhile isBCh).length)
        else none
    | [] => none

def matchAt (cs : List Char) : Option (List Char × List Char) :=
  matchAtLp (cs.takeWhile isACh) (cs.drop (cs.takeWhile isACh).length)

/-- Left-to-right non-overlapping scan of re.findall.  A successful match
consumes at least one character (the local part is nonempty), so fuel equal
to the length of the text is never exhausted. -/
def findAllAux : Nat → List Char → List (List Char)
  | 0, _ => []
  | _ + 1, [] => []
  | f + 1, c :: rest =>
    match matchAt (c :: rest) with
    | some (m, r) => m :: findAllAux f r
    | none => findAllAux f rest

/-- extract_emails (line 33-35): re.findall of the email pattern over text. -/
def extract_emails (text : String) : List String :=
  (findAllAux text.data.length text.data).map List.asString

/-- The declared shape of an extracted address: a nonempty local part over
the class A, an at-sign, a nonempty domain over the class B, a dot and a tld
of at least two letters. -/
def shapeL (m : List Char) : Prop :=
  ∃ lp dom tld : List Char,
    m = lp ++ '@' :: (dom ++ '.' :: tld) ∧
    lp ≠ [] ∧ (∀ c ∈ lp, isACh c = true) ∧
    dom ≠ [] ∧ (∀ c ∈ dom, isBCh c = true) ∧
    2 ≤ tld.length ∧ (∀ c ∈ tld, c.isAlpha = true)

def emailShape (s : String) : Prop := shapeL s.data

/-! ### String helpers used by the script -/

/-- Python substring containment (the in operator on strings), on char lists. -/
def strContainsAux (n : List Char) : List Char → Bool
  | [] => n.isEmpty
  | c :: t => n.isPrefixOf (c :: t) || strContainsAux n t

def strContains (needle hay : String) : Bool := strContainsAux needle.data hay.data

/-- Python str.startswith. -/
def startsWithStr (pre s : String) : Bool := pre.data.isPrefixOf s.data

/-- Python str.split(sep) for a nonempty separator, scanning left to right
over non-overlapping occurrences; the fuel argument is the length of the
text being split and is never exhausted. -/
def splitFuel (sep : List Char) : Nat → List Char → List Char → List (List Char)
  | _, [], acc => [acc.reverse]
  | 0, l, acc => [acc.reverse ++ l]
  | f + 1, c :: t, acc =>
    if sep ≠ [] ∧ sep.isPrefixOf (c :: t) then
      acc.reverse :: splitFuel sep f ((c :: t).drop sep.length) []
    else
      splitFuel sep f t (c :: acc)

def splitOnStr (s sep : String) : List String :=
  (splitFuel sep.data s.data.length s.data []).map List.asString

/-- Seed normalization (line 86-87): prepend the default scheme exactly when
the line does not start with the four characters http. -/
def normalizeSeed (u : String) : String :=
  if startsWithStr "http" u then u else "http://" ++ u

/-- Modelled from the spec: presence of a URL scheme in a seed line, read as
occurrence of the scheme separator (the spec derives the Domain from the
substring between the scheme separator and the next path separator). -/
def hasScheme (u : String) : Bool := strContains "://" u

/-- Domain derivation (line 98): parent_url.split with the double slash,
index 1, then split on the single slash, index 0.  The index 1 does not
exist when the split produced fewer than two pieces; that is the IndexError
of the script, modelled by none.  The inner index 0 always exists because a
split result is never empty. -/
def domainOf (u : String) : Option String :=
  match splitOnStr u "//" with
  | _ :: second :: _ => some ((splitOnStr second "/").headD "")
  | _ => none

/-! ### Driver sessions, traces, program state -/

/-- Observable driver-session events: webdriver.Chrome creation, driver.get
navigation, driver.quit shutdown.  Sessions are numbered in creation order. -/
inductive Ev where
  | create (id : Nat)
  | nav (id : Nat) (url : String)
  | quit (id : Nat)
  deriving DecidableEq

/-- The external rendering capability: for each URL, the rendered page source
(none models a WebDriverException while loading it in scrape_page) and the
href attributes of the anchor elements (none models a WebDriverException in
get_child_links; an individual none entry models an anchor whose href
attribute is missing). -/
structure Oracle where
  pageSource : String → Option String
  hrefs : String → Option (List (Option String))

/-- The module-level mutable state of the script, plus the session trace. -/
structure St where
  allEmails : Finset String
  visited : Finset String
  childLinksAll : List String
  nextId : Nat
  trace : List Ev
  deriving DecidableEq

def initSt : St := ⟨∅, ∅, [], 0, []⟩

/-- Result of a phase of the script: either it completed with a value, or an
uncaught exception escaped while the program state was the recorded one. -/
inductive Outcome (α : Type) where
  | ok (a : α)
  | raised (st : St)
  deriving DecidableEq

def isOk {α : Type} : Outcome α → Bool
  | .ok _ => true
  | .raised _ => false

def stateOf : Outcome St → St
  | .ok s => s
  | .raised s => s

/-! ### The scraping functions of the script -/

/-- The emails scrape_page computes for a URL: extract_emails over the page
source, or the empty list when the navigation failed (the except branch,
line 60-62). -/
def scrapeEmails (o : Oracle) (url : String) : List String :=
  match o.pageSource url with
  | some src => extract_emails src
  | none => []

/-- scrape_page (line 52-62): navigate the given driver to the URL and return
the extracted emails; failures are swallowed and yield the empty list. -/
def scrape_page (o : Oracle) (d : Nat) (url : String) : List Ev × List String :=
  ([Ev.nav d url], scrapeEmails o url)

/-- The filter loop of get_child_links (line 42-47): keep each href that is
present and truthy (non-None and nonempty), contains the parent domain as a
substring, and differs from the page URL; collect into a set. -/
def childFilter (hrefs : List (Option String)) (url parent_domain : String) : List String :=
  ((hrefs.filterMap id).filter fun href =>
      !(href == "") && strContains parent_domain href && !(href == url)).dedup

/-- get_child_links (line 37-50): navigate the given driver to the URL again,
then filter the anchor hrefs; a WebDriverException yields the empty list. -/
def get_child_links (o : Oracle) (d : Nat) (url parent_domain : String) :
    List Ev × List String :=
  ([Ev.nav d url],
   match o.hrefs url with
   | some hs => childFilter hs url parent_domain
   | none => [])

/-- scrape_worker (line 64-69): create a fresh driver, scrape, quit. -/
def scrape_worker (o : Oracle) (d : Nat) (url : String) : List Ev × List String :=
  ([Ev.create d] ++ (scrape_page o d url).1 ++ [Ev.quit d], (scrape_page o d url).2)

/-! ### The seed loop (line 85-102) -/

/-- State after the top of one seed iteration: the normalized URL is marked
visited, a driver is created, the page is scraped and any emails are merged.
This is the program state at line 97, just before the domain derivation. -/
def seedStepBody (o : Oracle) (st : St) (parent_url : String) : St :=
  { allEmails :=
      if (scrape_page o st.nextId parent_url).2 = [] then st.allEmails
      else st.allEmails ∪ (scrape_page o st.nextId parent_url).2.toFinset
    visited := insert parent_url st.visited
    childLinksAll := st.childLinksAll
    nextId := st.nextId + 1
    trace := st.trace ++ Ev.create st.nextId :: (scrape_page o st.nextId parent_url).1 }

/-- One iteration of the seed loop.  When the domain derivation fails the
IndexError escapes: the state (with the driver created and not quit) is
returned as raised.  Otherwise get_child_links runs on the same driver, the
child links are appended and the driver is quit. -/
def seedStep (o : Oracle) (st : St) (line : String) : Outcome St :=
  match domainOf (normalizeSeed line) with
  | none => .raised (seedStepBody o st (normalizeSeed line))
  | some parent_domain =>
      .ok { seedStepBody o st (normalizeSeed line) with
            childLinksAll := st.childLinksAll ++
              (get_child_links o st.nextId (normalizeSeed line) parent_domain).2
            trace := (seedStepBody o st (normalizeSeed line)).trace ++
              (get_child_links o st.nextId (normalizeSeed line) parent_domain).1 ++
              [Ev.quit st.nextId] }

/-- The sequential seed loop over the seed lines. -/
def seedPhase (o : Oracle) : List String → St → Outcome St
  | [], st => .ok st
  | u :: rest, st =>
    match seedStep o st u with
    | .ok st' => seedPhase o rest st'
    | .raised st' => .raised st'

/-! ### The parallel child phase (line 104-119) -/

/-- Line 105: deduplicate the collected child links and drop those already
visited as seeds. -/
def childTasks (st : St) : List String :=
  st.childLinksAll.dedup.filter fun l => decide (l ∉ st.visited)

/-- Completion of one child task in the as_completed loop: the worker ran as
a pure function of its URL, its trace is appended, and the main thread merges
the returned emails into the global set (line 114-117). -/
def childStep (o : Oracle) (st : St) (url : String) : St :=
  { st with
    nextId := st.nextId + 1
    trace := st.trace ++ (scrape_worker o st.nextId url).1
    allEmails :=
      if (scrape_worker o st.nextId url).2 = [] then st.allEmails
      else st.allEmails ∪ (scrape_worker o st.nextId url).2.toFinset }

/-- The as_completed loop, processing the child tasks in the given completion
order. -/
def childPhase (o : Oracle) (st : St) : List String → St
  | [] => st
  | u :: rest => childPhase o (childStep o st u) rest

/-- Union of the email sets scraped from a list of URLs. -/
def unionOver (o : Oracle) (urls : List String) : Finset String :=
  urls.foldr (fun u acc => (scrapeEmails o u).toFinset ∪ acc) ∅

/-! ### Output and the whole run (line 121-126) -/

/-- The rows of the output file: the header cell Email followed by the
accumulated emails in sorted order. -/
def outputRows (emails : Finset String) : List String :=
  "Email" :: emails.sort (· ≤ ·)

/-- The whole run: the seed loop, then the child tasks in the given
completion order, then the output rows.  An exception escaping the seed loop
halts the run before anything is written. -/
def run (o : Oracle) (seeds : List String) (order : List String) :
    Outcome (List String) :=
  match seedPhase o seeds initSt with
  | .raised st => .raised st
  | .ok st => .ok (outputRows (childPhase o st order).allEmails)

/-! ### Trace statistics and concrete fixtures -/

def navCount (t : List Ev) : Nat :=
  t.countP fun e => match e with | Ev.nav _ _ => true | _ => false

def createCount (t : List Ev) : Nat :=
  t.countP fun e => match e with | Ev.create _ => true | _ => false

def quitCount (t : List Ev) : Nat :=
  t.countP fun e => match e with | Ev.quit _ => true | _ => false

/-- A rendering capability on which every navigation fails. -/
def oracleEmpty : Oracle := ⟨fun _ => none, fun _ => none⟩

/-- A rendering capability with one page holding one email and no links. -/
def oracleDemo : Oracle :=
  ⟨fun u => if u = "http://a.com" then some "a@b.cd" else none, fun _ => none⟩

/-- A rendering capability with anchors on the seed page: one same-domain
child, a missing href, an empty href, and a foreign-domain link. -/
def oracleLinks : Oracle :=
  ⟨fun _ => none,
   fun u => if u = "http://a.com" then
      some [some "http://a.com/p", none, some "", some "http://other.org"]
    else some []⟩

/-- The state after running the seed loop of oracleDemo on the seed a.com. -/
def stDemo : St :=
  { allEmails := {"a@b.cd"}
    visited := {"http://a.com"}
    childLinksAll := []
    nextId := 1
    trace := [Ev.create 0, Ev.nav 0 "http://a.com", Ev.nav 0 "http://a.com", Ev.quit 0] }

/-! ## Lemmas about the email extractor -/

theorem bestDot_sound (S : List Char) (k : Nat) (h : bestDot S = some k) :
    1 ≤ k ∧ k < S.length ∧ 2 ≤ (letterRun (S.drop (k+1))).length := by
  unfold bestDot at h
  have hp := List.find?_some h
  have hmem := List.mem_of_find?_eq_some h
  rw [List.mem_reverse, List.mem_range] at hmem
  simp only [Bool.and_eq_true, decide_eq_true_eq] at hp
  exact ⟨hp.1.1, hmem, hp.1.2⟩

theorem matchAtDom_shape (lp S r2 m r : List Char) (hlp : lp ≠ [])
    (hlpA : ∀ c ∈ lp, isACh c = true) (hS : ∀ c ∈ S, isBCh c = true)
    (h : matchAtDom lp S r2 = some (m, r)) : shapeL m := by
  unfold matchAtDom at h
  cases hbd : bestDot S with
  | none => rw [hbd] at h; exact Option.noConfusion h
  | some k =>
      rw [hbd] at h
      obtain ⟨hk1, hklen, hkrun⟩ := bestDot_sound S k hbd
      injection h with h1
      injection h1 with hm hr
      refine ⟨lp, S.take k, letterRun (S.drop (k+1)), hm.symm, hlp, hlpA, ?_, ?_, hkrun, ?_⟩
      · apply List.ne_nil_of_length_pos
        rw [List.length_take]
        exact lt_min (by omega) (by omega)
      · intro c hc
        exact hS c (List.take_subset k S hc)
      · intro c hc
        simp only [letterRun] at hc
        exact List.mem_takeWhile_imp hc

theorem matchAtLp_shape (lp rest m r : List Char) (hlpA : ∀ c ∈ lp, isACh c = true)
    (h : matchAtLp lp rest = some (m, r)) : shapeL m := by
  unfold matchAtLp at h
  split at h
  · exact Option.noConfusion h
  · next hlp =>
    split at h
    · next c r1 =>
      split at h
      · exact matchAtDom_shape lp (r1.takeWhile isBCh) _ m r hlp hlpA
          (fun c hc2 => List.mem_takeWhile_imp hc2) h
      · exact Option.noConfusion h
    · exact Option.noConfusion h

theorem matchAt_shape (cs m r : List Char) (h : matchAt cs = some (m, r)) : shapeL m := by
  unfold matchAt at h
  exact matchAtLp_shape _ _ m r (fun c hc => List.mem_takeWhile_imp hc) h

theorem findAllAux_mem : ∀ (f : Nat) (cs m : List Char),
    m ∈ findAllAux f cs → ∃ cs2 r, matchAt cs2 = some (m, r)
  | 0, _, m, h => absurd h (by simp [findAllAux])
  | _ + 1, [], m, h => absurd h (by simp [findAllAux])
  | f + 1, c :: rest, m, h => by
    simp only [findAllAux] at h
    split at h
    · next m0 r hm =>
      rcases List.mem_cons.mp h with rfl | h2
      · exact ⟨c :: rest, r, hm⟩
      · exact findAllAux_mem f r m h2
    · exact findAllAux_mem f rest m h

/-- Claim C7: for every input text, every string returned by extract_emails
matches the shape localpart-at-domain-dot-tld, with the local part drawn from
letters, digits, dot, underscore, percent, plus and hyphen, the domain from
letters, digits, dot and hyphen, and a tld of at least two letters; the
extractor is a total function returning a (possibly empty) list. -/
theorem c7_extract_emails_shape (text s : String) (h : s ∈ extract_emails text) :
    emailShape s := by
  unfold extract_emails at h
  obtain ⟨m, hm, rfl⟩ := List.mem_map.mp h
  obtain ⟨cs2, r, hmatch⟩ := findAllAux_mem _ _ m hm
  exact matchAt_shape cs2 m r hmatch

/-- Witness for C7: the extractor finds the address in a concrete text and
the theorem yields its shape. -/
theorem c7_extract_emails_shape_witness :
    "a@b.co" ∈ extract_emails "contact a@b.co!" ∧ emailShape "a@b.co" :=
  ⟨by decide, c7_extract_emails_shape "contact a@b.co!" "a@b.co" (by decide)⟩

/-! ## Lemmas about substring containment and the child-link filter -/

theorem isPrefixOf_iff_exists : ∀ (n h : List Char), n.isPrefixOf h = true ↔ ∃ t, n ++ t = h
  | [], h => by simp [List.isPrefixOf]
  | a :: as, [] => by simp [List.isPrefixOf]
  | a :: as, b :: bs => by
    simp only [List.isPrefixOf, Bool.and_eq_true, beq_iff_eq]
    constructor
    · rintro ⟨rfl, hp⟩
      obtain ⟨t, rfl⟩ := (isPrefixOf_iff_exists as bs).mp hp
      exact ⟨t, rfl⟩
    · rintro ⟨t, ht⟩
      rw [List.cons_append] at ht
      injection ht with h1 h2
      exact ⟨h1, (isPrefixOf_iff_exists as bs).mpr ⟨t, h2⟩⟩

theorem strContainsAux_iff : ∀ (n h : List Char),
    strContainsAux n h = true ↔ ∃ s t, s ++ n ++ t = h
  | n, [] => by
    simp only [strContainsAux, List.isEmpty_iff]
    constructor
    · rintro rfl
      exact ⟨[], [], rfl⟩
    · rintro ⟨s, t, hst⟩
      rcases List.append_eq_nil.mp hst with ⟨hsn, rfl⟩
      exact (List.append_eq_nil.mp hsn).2
  | n, c :: tl => by
    simp only [strContainsAux, Bool.or_eq_true, isPrefixOf_iff_exists,
      strContainsAux_iff n tl]
    constructor
    · rintro (⟨t, ht⟩ | ⟨s, t, hst⟩)
      · exact ⟨[], t, by simpa using ht⟩
      · exact ⟨c :: s, t, by simp [hst]⟩
    · rintro ⟨s, t, hst⟩
      cases s with
      | nil => exact Or.inl ⟨t, by simpa using hst⟩
      | cons s0 st =>
        simp only [List.cons_append] at hst
        injection hst with h1 h2
        exact Or.inr ⟨st, t, h2⟩

/-- Python substring containment agrees with the existence of a decomposition
hay = before ++ needle ++ after. -/
theorem strContains_iff (needle hay : String) :
    strContains needle hay = true ↔ ∃ s t, s ++ needle.data ++ t = hay.data :=
  strContainsAux_iff needle.data hay.data

/-- Claim C5: on a successfully rendered page, the child-link list returned by
get_child_links consists exactly of the href values that are present and
nonempty, contain the parent domain as a substring, and differ from the page
URL, with duplicates removed; no other link is included. -/
theorem c5_child_link_filter (o : Oracle) (d : Nat) (url parent_domain : String)
    (hs : List (Option String)) (h : o.hrefs url = some hs) :
    (∀ l, l ∈ (get_child_links o d url parent_domain).2 ↔
        (some l ∈ hs ∧ l ≠ "" ∧ (∃ s t, s ++ parent_domain.data ++ t = l.data) ∧ l ≠ url)) ∧
    (get_child_links o d url parent_domain).2.Nodup := by
  have h2 : (get_child_links o d url parent_domain).2 = childFilter hs url parent_domain := by
    simp [get_child_links, h]
  rw [h2]
  constructor
  · intro l
    unfold childFilter
    rw [List.mem_dedup, List.mem_filter, List.mem_filterMap]
    simp only [id, Bool.and_eq_true, Bool.not_eq_true', beq_eq_false_iff_ne,
      strContains_iff]
    constructor
    · rintro ⟨⟨a, ha, rfl⟩, ⟨hne, hsub⟩, hurl⟩
      exact ⟨ha, hne, hsub, hurl⟩
    · rintro ⟨ha, hne, hsub, hurl⟩
      exact ⟨⟨some l, ha, rfl⟩, ⟨hne, hsub⟩, hurl⟩
  · exact List.nodup_dedup _

/-- Witness for C5: the filtered link list of a concrete page has no
duplicates. -/
theorem c5_child_link_filter_witness :
    (get_child_links oracleLinks 0 "http://a.com" "a.com").2.Nodup :=
  (c5_child_link_filter oracleLinks 0 "http://a.com" "a.com"
    [some "http://a.com/p", none, some "", some "http://other.org"] (by decide)).2

/-! ## Lemmas about the seed loop and the child phase -/

theorem ite_union_emails (A : Finset String) (l : List String) :
    (if l = [] then A else A ∪ l.toFinset) = A ∪ l.toFinset := by
  split
  · next h => subst h; simp
  · rfl

theorem unionOver_nil (o : Oracle) : unionOver o [] = ∅ := rfl

theorem unionOver_cons (o : Oracle) (u : String) (l : List String) :
    unionOver o (u :: l) = (scrapeEmails o u).toFinset ∪ unionOver o l := rfl

theorem unionOver_perm (o : Oracle) {l1 l2 : List String} (h : l1.Perm l2) :
    unionOver o l1 = unionOver o l2 := by
  induction h with
  | nil => rfl
  | cons x h ih => rw [unionOver_cons, unionOver_cons, ih]
  | swap x y t =>
      rw [unionOver_cons, unionOver_cons, unionOver_cons, unionOver_cons,
        Finset.union_left_comm]
  | trans h1 h2 ih1 ih2 => rw [ih1, ih2]

theorem seedStep_ok_allEmails (o : Oracle) (st : St) (u : String) (st' : St)
    (h : seedStep o st u = .ok st') :
    st'.allEmails = st.allEmails ∪ (scrapeEmails o (normalizeSeed u)).toFinset := by
  unfold seedStep at h
  cases hd : domainOf (normalizeSeed u) with
  | none => rw [hd] at h; exact Outcome.noConfusion h
  | some pd =>
      rw [hd] at h
      injection h with h1
      subst h1
      simp only [seedStepBody, ite_union_emails]
      rfl

theorem seedPhase_ok_allEmails (o : Oracle) : ∀ (seeds : List String) (st0 st : St),
    seedPhase o seeds st0 = .ok st →
    st.allEmails = st0.allEmails ∪ unionOver o (seeds.map normalizeSeed)
  | [], st0, st, h => by
    injection h with h1
    subst h1
    simp [unionOver_nil]
  | u :: rest, st0, st, h => by
    simp only [seedPhase] at h
    cases hs : seedStep o st0 u with
    | raised e => rw [hs] at h; exact Outcome.noConfusion h
    | ok st1 =>
        rw [hs] at h
        rw [seedPhase_ok_allEmails o rest st1 st h, seedStep_ok_allEmails o st0 u st1 hs,
          List.map_cons, unionOver_cons, Finset.union_assoc]

theorem childPhase_nil (o : Oracle) (st : St) : childPhase o st [] = st := rfl

theorem childPhase_cons (o : Oracle) (st : St) (u : String) (rest : List String) :
    childPhase o st (u :: rest) = childPhase o (childStep o st u) rest := rfl

theorem childStep_allEmails (o : Oracle) (st : St) (u : String) :
    (childStep o st u).allEmails = st.allEmails ∪ (scrapeEmails o u).toFinset := by
  simp only [childStep, ite_union_emails]
  rfl

theorem childPhase_allEmails (o : Oracle) : ∀ (order : List String) (st : St),
    (childPhase o st order).allEmails = st.allEmails ∪ unionOver o order
  | [], st => by
    rw [childPhase_nil, unionOver_nil, Finset.union_empty]
  | u :: rest, st => by
    rw [childPhase_cons, childPhase_allEmails o rest (childStep o st u), childStep_allEmails,
      Finset.union_assoc, ← unionOver_cons]

theorem childPhase_visited (o : Oracle) : ∀ (order : List String) (st : St),
    (childPhase o st order).visited = st.visited
  | [], _ => rfl
  | u :: rest, st => by
    rw [childPhase_cons, childPhase_visited o rest (childStep o st u)]
    rfl

theorem childPhase_childLinksAll (o : Oracle) : ∀ (order : List String) (st : St),
    (childPhase o st order).childLinksAll = st.childLinksAll
  | [], _ => rfl
  | u :: rest, st => by
    rw [childPhase_cons, childPhase_childLinksAll o rest (childStep o st u)]
    rfl

theorem childPhase_nav (o : Oracle) : ∀ (order : List String) (st : St) (d : Nat) (u : String),
    Ev.nav d u ∈ (childPhase o st order).trace → Ev.nav d u ∈ st.trace ∨ u ∈ order
  | [], _, _, _, h => Or.inl h
  | u0 :: rest, st, d, u, h => by
    rcases childPhase_nav o rest (childStep o st u0) d u h with h1 | h1
    · have h2 : Ev.nav d u ∈ st.trace ++ (scrape_worker o st.nextId u0).1 := h1
      rcases List.mem_append.mp h2 with h3 | h3
      · exact Or.inl h3
      · simp only [scrape_worker, scrape_page, List.cons_append, List.nil_append,
          List.mem_cons, List.not_mem_nil, or_false] at h3
        rcases h3 with h4 | h4 | h4
        · exact absurd h4 (by simp)
        · injection h4 with _ h5
          exact Or.inr (h5 ▸ List.mem_cons_self u0 rest)
        · exact absurd h4 (by simp)
    · exact Or.inr (List.mem_cons_of_mem u0 h1)

/-! ## The claims -/

/-- Claim C1: when the seed loop completes, the final accumulated email set
equals the union of the emails scraped from every (normalized) seed page and
from every child task (the child links not in the visited set), and it is
invariant under any permutation of the completion order of the child tasks. -/
theorem c1_result_union_invariant (o : Oracle) (seeds : List String) (st : St)
    (h : seedPhase o seeds initSt = .ok st) (order : List String)
    (hp : order.Perm (childTasks st)) :
    (childPhase o st order).allEmails =
      unionOver o (seeds.map normalizeSeed) ∪ unionOver o (childTasks st) ∧
    ∀ order2, order2.Perm (childTasks st) →
      (childPhase o st order2).allEmails = (childPhase o st order).allEmails := by
  have hseed := seedPhase_ok_allEmails o seeds initSt st h
  have hmain : ∀ ord, ord.Perm (childTasks st) →
      (childPhase o st ord).allEmails =
        unionOver o (seeds.map normalizeSeed) ∪ unionOver o (childTasks st) := by
    intro ord hperm
    rw [childPhase_allEmails, hseed, unionOver_perm o hperm]
    have h0 : initSt.allEmails = ∅ := rfl
    rw [h0, Finset.empty_union]
  exact ⟨hmain order hp, fun order2 hp2 => (hmain order2 hp2).trans (hmain order hp).symm⟩

/-- Witness for C1: a concrete one-seed run with its (empty) child phase. -/
theorem c1_result_union_invariant_witness :
    (childPhase oracleDemo stDemo []).allEmails =
      unionOver oracleDemo (["a.com"].map normalizeSeed) ∪
        unionOver oracleDemo (childTasks stDemo) :=
  (c1_result_union_invariant oracleDemo ["a.com"] stDemo (by decide) [] (by decide)).1

/-- Counterexample to C2 as stated: the seed line httpexample.com contains no
URL scheme, yet the script does not repair it by prefixing the default
scheme: because the line starts with the four characters http it is fetched
unchanged. -/
theorem c2_scheme_counterexample :
    hasScheme "httpexample.com" = false ∧
    normalizeSeed "httpexample.com" = "httpexample.com" ∧
    normalizeSeed "httpexample.com" ≠ "http://" ++ "httpexample.com" := by decide

/-- Claim C2 (amended): a seed line is prefixed with the default scheme
exactly when it does not start with the literal characters http (so a
scheme-less line starting with http is left unrepaired), and no seed is ever
rejected: every seed iteration marks the normalized URL visited and navigates
a driver to it, whether or not the iteration later raises. -/
theorem c2_seed_normalization (u : String) (o : Oracle) (st : St) :
    (startsWithStr "http" u = false → normalizeSeed u = "http://" ++ u) ∧
    normalizeSeed u ∈ (stateOf (seedStep o st u)).visited ∧
    Ev.nav st.nextId (normalizeSeed u) ∈ (stateOf (seedStep o st u)).trace := by
  refine ⟨fun hf => by simp [normalizeSeed, hf], ?_, ?_⟩
  · unfold seedStep
    cases hd : domainOf (normalizeSeed u) with
    | none => simp [stateOf, seedStepBody]
    | some pd => simp [stateOf, seedStepBody]
  · unfold seedStep
    cases hd : domainOf (normalizeSeed u) with
    | none => simp [stateOf, seedStepBody, scrape_page]
    | some pd => simp [stateOf, seedStepBody, scrape_page, get_child_links]

/-- Witness for C2: a concrete scheme-less seed really is prefixed. -/
theorem c2_seed_normalization_witness :
    startsWithStr "http" "a.com" = false ∧
    normalizeSeed "a.com" = "http://" ++ "a.com" :=
  ⟨by decide, (c2_seed_normalization "a.com" oracleEmpty initSt).1 (by decide)⟩

/-- Counterexample to C3 as stated: on a concrete seed the session trace of
one seed iteration contains two navigation events, not one — the links step
navigates the session to the URL a second time. -/
theorem c3_renavigation_counterexample :
    navCount (stateOf (seedStep oracleEmpty initSt "a.com")).trace = 2 := by decide

/-- Claim C3 (amended): during a seed iteration the child links are computed
on the same driver session that scraped the emails — exactly one driver is
created and every navigation carries its id — but the links step DOES
navigate that session to the URL a second time before reading the anchors. -/
theorem c3_same_session_renavigates (o : Oracle) (st : St) (u : String)
    (pd : String) (h : domainOf (normalizeSeed u) = some pd) :
    isOk (seedStep o st u) = true ∧
    (stateOf (seedStep o st u)).trace = st.trace ++
      [Ev.create st.nextId, Ev.nav st.nextId (normalizeSeed u),
       Ev.nav st.nextId (normalizeSeed u), Ev.quit st.nextId] := by
  unfold seedStep
  rw [h]
  exact ⟨rfl, by simp [stateOf, seedStepBody, scrape_page, get_child_links]⟩

/-- Witness for C3: the amended statement at a concrete seed. -/
theorem c3_same_session_renavigates_witness :
    isOk (seedStep oracleEmpty initSt "a.com") = true ∧
    (stateOf (seedStep oracleEmpty initSt "a.com")).trace = initSt.trace ++
      [Ev.create initSt.nextId, Ev.nav initSt.nextId (normalizeSeed "a.com"),
       Ev.nav initSt.nextId (normalizeSeed "a.com"), Ev.quit initSt.nextId] :=
  c3_same_session_renavigates oracleEmpty initSt "a.com" "a.com" (by decide)

/-- Claim C4 is violated by the code: on the seed httpexample.com the seed
iteration creates a driver session and navigates it, then the IndexError of
the domain derivation escapes before driver.quit is reached, so the created
session is never released on that exit path. -/
theorem c4_session_leaked :
    isOk (seedStep oracleEmpty initSt "httpexample.com") = false ∧
    createCount (stateOf (seedStep oracleEmpty initSt "httpexample.com")).trace = 1 ∧
    quitCount (stateOf (seedStep oracleEmpty initSt "httpexample.com")).trace = 0 := by
  decide

/-- Claim C6: the child task set is exactly the deduplicated child-link
collection minus the visited set, so a URL marked visited during the seed
phase is never a child task; consequently every navigation event of the child
phase either was already present in the trace or targets a URL outside the
visited set. -/
theorem c6_visited_never_refetched (o : Oracle) (st : St) :
    (∀ u, u ∈ childTasks st ↔ (u ∈ st.childLinksAll ∧ u ∉ st.visited)) ∧
    (∀ d u, Ev.nav d u ∈ (childPhase o st (childTasks st)).trace →
        Ev.nav d u ∈ st.trace ∨ u ∉ st.visited) := by
  have hchar : ∀ u, u ∈ childTasks st ↔ (u ∈ st.childLinksAll ∧ u ∉ st.visited) := by
    intro u
    unfold childTasks
    rw [List.mem_filter, List.mem_dedup]
    simp
  refine ⟨hchar, fun d u h => ?_⟩
  rcases childPhase_nav o (childTasks st) st d u h with h1 | h1
  · exact Or.inl h1
  · exact Or.inr ((hchar u).mp h1).2

/-- Witness for C6: a visited URL of a concrete state is not a child task. -/
theorem c6_visited_never_refetched_witness :
    "http://a.com" ∉ childTasks stDemo :=
  fun hm =>
    (((c6_visited_never_refetched oracleEmpty stDemo).1 "http://a.com").mp hm).2 (by decide)

/-- Claim C8: the output rows are the single header row Email followed by
exactly the accumulated emails, in strictly increasing lexicographic order
and therefore with no duplicate rows under case-sensitive equality. -/
theorem c8_output_sorted (emails : Finset String) :
    ∃ l, outputRows emails = "Email" :: l ∧ List.Sorted (· < ·) l ∧
      l.Nodup ∧ ∀ e, e ∈ l ↔ e ∈ emails :=
  ⟨emails.sort (· ≤ ·), rfl, Finset.sort_sorted_lt emails,
    Finset.sort_nodup _ emails, fun _ => Finset.mem_sort _⟩

/-- Claim C9: the seed line httpexample.com starts with http but contains no
double slash, so the domain derivation has no index 1 and the modelled
IndexError escapes: for every rendering oracle and every completion order the
whole run halts without producing output rows. -/
theorem c9_run_halts (o : Oracle) (order : List String) :
    domainOf (normalizeSeed "httpexample.com") = none ∧
    isOk (run o ["httpexample.com"] order) = false := by
  have hd : domainOf (normalizeSeed "httpexample.com") = none := by decide
  exact ⟨hd, by simp [run, seedPhase, seedStep, hd, isOk]⟩

/-- Claim C10: the child phase leaves every piece of global state other than
the accumulated email set unchanged, and the email set changes exactly by the
union of the per-task results, each of which is a pure function of its URL
merged by the completion loop. -/
theorem c10_child_phase_frame (o : Oracle) (st : St) (order : List String) :
    (childPhase o st order).visited = st.visited ∧
    (childPhase o st order).childLinksAll = st.childLinksAll ∧
    (childPhase o st order).allEmails = st.allEmails ∪ unionOver o order :=
  ⟨childPhase_visited o order st, childPhase_childLinksAll o order st,
    childPhase_allEmails o order st⟩
